/-
  Verification of the polyjuice user-identity execution subsystem.

  Shallow embedding of:
  - src/env.rs        (get_user_env: privilege check, helper process, env parsing)
  - src/lib.rs        (cmd_as_user, try_pam_session)
  - src/main.rs       (get_env_as_map, setup_pam_context, the main control flow
                       and the child-process supervisor section)

  Byte streams are lists of naturals (byte values); decoded text is a list of
  naturals (Unicode code points).  External library behaviour that the source
  relies on (Rust String::from_utf8_lossy, str::lines, str::splitn,
  HashMap::insert) is embedded faithfully from its documented semantics.
-/
import Mathlib

namespace Polyjuice

deriving instance DecidableEq for Except

/-- Code points of a string literal, for readable concrete test inputs. -/
def codes (s : String) : List Nat := s.toList.map Char.toNat

/-! ## Line parsing (env.rs lines 49-54, main.rs lines 67-72)

`line.splitn(2, '=')`: the first `=` (code point 61) splits the line into
key and value; a line with no `=` yields a single fragment, so the
`(Some(key), Some(value))` pattern fails and the line is dropped. -/

/-- Split a line at its first `=` (Rust `splitn(2, '=')` followed by the
`(Some, Some)` pattern match): `some (key, value)` when the line contains
an `=`, `none` otherwise. -/
def splitFirstEq : List Nat → Option (List Nat × List Nat)
  | [] => none
  | c :: rest =>
    if c = 61 then some ([], rest)
    else
      match splitFirstEq rest with
      | some (k, v) => some (c :: k, v)
      | none => none

/-- Semantics of Rust `HashMap::insert` on an association list: replace the value of
an existing key in place, otherwise append the new binding. -/
def insertEnv : List (List Nat × List Nat) → List Nat → List Nat → List (List Nat × List Nat)
  | [], k, v => [(k, v)]
  | (k', v') :: rest, k, v =>
    if k' = k then (k, v) :: rest else (k', v') :: insertEnv rest k v

/-- Semantics of `HashMap::get` on the association list. -/
def lookupEnv : List (List Nat × List Nat) → List Nat → Option (List Nat)
  | [], _ => none
  | (k', v') :: rest, k => if k' = k then some v' else lookupEnv rest k

/-- One iteration of the parse loop in `get_user_env` / `get_env_as_map`. -/
def parseStep (m : List (List Nat × List Nat)) (line : List Nat) :
    List (List Nat × List Nat) :=
  match splitFirstEq line with
  | some (k, v) => insertEnv m k v
  | none => m

/-- The whole parse loop: fold the per-line step over the captured lines,
starting from the empty map (env.rs lines 48-54). -/
def parseEnvLines (ls : List (List Nat)) : List (List Nat × List Nat) :=
  ls.foldl parseStep []

/-! ## UTF-8 lossy decoding (Rust `String::from_utf8_lossy`)

Both `get_user_env` and `get_env_as_map` decode the captured stdout and
stderr bytes with `String::from_utf8_lossy`, which replaces each maximal
invalid subsequence (per the substitution-of-maximal-subparts policy of
`core::str::run_utf8_validation`) with one U+FFFD replacement character. -/

/-- Is the byte a UTF-8 continuation byte (`0x80..=0xBF`)? -/
def isCont (b : Nat) : Bool := decide (0x80 ≤ b ∧ b ≤ 0xBF)

/-- Valid first continuation byte of a 3-byte sequence headed by `b`
(`0xE0` requires `0xA0..=0xBF`, `0xED` requires `0x80..=0x9F`). -/
def cont3first (b c1 : Nat) : Bool :=
  decide ((b = 0xE0 ∧ 0xA0 ≤ c1 ∧ c1 ≤ 0xBF) ∨
          (b = 0xED ∧ 0x80 ≤ c1 ∧ c1 ≤ 0x9F) ∨
          (b ≠ 0xE0 ∧ b ≠ 0xED ∧ 0x80 ≤ c1 ∧ c1 ≤ 0xBF))

/-- Valid first continuation byte of a 4-byte sequence headed by `b`
(`0xF0` requires `0x90..=0xBF`, `0xF4` requires `0x80..=0x8F`). -/
def cont4first (b c1 : Nat) : Bool :=
  decide ((b = 0xF0 ∧ 0x90 ≤ c1 ∧ c1 ≤ 0xBF) ∨
          (b = 0xF4 ∧ 0x80 ≤ c1 ∧ c1 ≤ 0x8F) ∨
          (b ≠ 0xF0 ∧ b ≠ 0xF4 ∧ 0x80 ≤ c1 ∧ c1 ≤ 0xBF))

/-- Lossy UTF-8 decoding of a byte list into a code-point list, following
Rust's `String::from_utf8_lossy`: an invalid maximal subpart of 1-3 bytes
(or a truncated sequence at end of input) becomes one U+FFFD (0xFFFD). -/
def utf8Lossy : List Nat → List Nat
  | [] => []
  | [b] => if b < 0x80 then [b] else [0xFFFD]
  | b :: c1 :: rest =>
    if b < 0x80 then b :: utf8Lossy (c1 :: rest)
    else if b < 0xC2 then 0xFFFD :: utf8Lossy (c1 :: rest)
    else if b < 0xE0 then
      if isCont c1 then ((b - 0xC0) * 64 + (c1 - 0x80)) :: utf8Lossy rest
      else 0xFFFD :: utf8Lossy (c1 :: rest)
    else if b < 0xF0 then
      if cont3first b c1 then
        match rest with
        | [] => [0xFFFD]
        | c2 :: rest2 =>
          if isCont c2 then
            ((b - 0xE0) * 4096 + (c1 - 0x80) * 64 + (c2 - 0x80)) :: utf8Lossy rest2
          else 0xFFFD :: utf8Lossy (c2 :: rest2)
      else 0xFFFD :: utf8Lossy (c1 :: rest)
    else if b < 0xF5 then
      if cont4first b c1 then
        match rest with
        | [] => [0xFFFD]
        | c2 :: rest2 =>
          if isCont c2 then
            match rest2 with
            | [] => [0xFFFD]
            | c3 :: rest3 =>
              if isCont c3 then
                ((b - 0xF0) * 0x40000 + (c1 - 0x80) * 4096 + (c2 - 0x80) * 64 +
                  (c3 - 0x80)) :: utf8Lossy rest3
              else 0xFFFD :: utf8Lossy (c3 :: rest3)
          else 0xFFFD :: utf8Lossy (c2 :: rest2)
      else 0xFFFD :: utf8Lossy (c1 :: rest)
    else 0xFFFD :: utf8Lossy (c1 :: rest)

/-- Encoding of one Unicode scalar value in UTF-8. -/
def utf8EncodeChar (c : Nat) : List Nat :=
  if c < 0x80 then [c]
  else if c < 0x800 then [0xC0 + c / 64, 0x80 + c % 64]
  else if c < 0x10000 then
    [0xE0 + c / 4096, 0x80 + (c / 64) % 64, 0x80 + c % 64]
  else
    [0xF0 + c / 0x40000, 0x80 + (c / 4096) % 64, 0x80 + (c / 64) % 64,
      0x80 + c % 64]

/-- Encoding of a code-point list in UTF-8. -/
def utf8Encode : List Nat → List Nat
  | [] => []
  | c :: cs => utf8EncodeChar c ++ utf8Encode cs

/-- A Unicode scalar value: in range and not a surrogate. -/
def IsScalar (c : Nat) : Prop :=
  c < 0x110000 ∧ (c < 0xD800 ∨ 0xE000 ≤ c)

instance (c : Nat) : Decidable (IsScalar c) := by
  unfold IsScalar
  infer_instance

/-! ## Line splitting (Rust `str::lines`)

`lines()` splits at `\n` (code 10), does not yield a final empty line for a
trailing `\n`, and strips one trailing `\r` (code 13) from each line. -/

/-- Split at every code 10, keeping empty fragments (always nonempty). -/
def splitOnNl : List Nat → List (List Nat)
  | [] => [[]]
  | c :: rest =>
    if c = 10 then [] :: splitOnNl rest
    else
      match splitOnNl rest with
      | [] => [[c]]
      | p :: ps => (c :: p) :: ps

/-- Strip one trailing carriage return (code 13), as `str::lines` does. -/
def stripTrailCR (l : List Nat) : List Nat :=
  if l.getLast? = some 13 then l.dropLast else l

/-- Rust `str::lines` on a code-point list. -/
def rustLines (cs : List Nat) : List (List Nat) :=
  let ps := splitOnNl cs
  (if ps.getLast? = some [] then ps.dropLast else ps).map stripTrailCR

/-! ## Environment harvesting (env.rs `get_user_env`, main.rs `get_env_as_map`)

The helper subprocess (`su - <user> -c printenv`) is abstracted as a world
record supplying what the OS returns: whether the launch succeeded
(`Command::output` returned `Ok`), whether the exit status was success, and
the captured stdout/stderr byte streams.  Each embedded operation returns
its result together with the list of observable events it performed, in
order. -/

/-- What the operating system answers when the helper process is run. -/
structure HelperWorld where
  launchOk : Bool
  exitZero : Bool
  stdout : List Nat
  stderr : List Nat
  ioErrMsg : List Nat
deriving DecidableEq

/-- Error type `env::Error` (env.rs lines 7-11). -/
inductive EnvError
  | insufficientPrivileges
  | failedExecutingCommand (msg : List Nat)
  | commandExited (msg : List Nat)
deriving DecidableEq

/-- Observable steps of a harvest invocation. -/
inductive EnvEvent
  | privCheck
  | spawnHelper
deriving DecidableEq

/-- Embedding of `get_user_env` (env.rs lines 23-57): check `get_effective_uid() == 0`
before anything else, run the helper, fail on launch error or non-zero
exit (stderr decoded lossily), otherwise parse the lossily decoded stdout
line by line.  Returns the result paired with the events performed. -/
def getUserEnv (euid : Nat) (w : HelperWorld) :
    Except EnvError (List (List Nat × List Nat)) × List EnvEvent :=
  if euid ≠ 0 then
    (.error .insufficientPrivileges, [.privCheck])
  else
    (if w.launchOk = false then .error (.failedExecutingCommand w.ioErrMsg)
     else if w.exitZero = false then .error (.commandExited (utf8Lossy w.stderr))
     else .ok (parseEnvLines (rustLines (utf8Lossy w.stdout))),
     [.privCheck, .spawnHelper])

/-- Embedding of `get_env_as_map` (main.rs lines 47-74): the main binary's own harvest
routine.  Identical helper invocation and parsing, but no privilege check
(the ambient effective uid `euid` is ignored) and string-typed errors. -/
def getEnvAsMap (_euid : Nat) (w : HelperWorld) :
    Except (List Nat) (List (List Nat × List Nat)) × List EnvEvent :=
  (if w.launchOk = false then .error w.ioErrMsg
   else if w.exitZero = false then .error (utf8Lossy w.stderr)
   else .ok (parseEnvLines (rustLines (utf8Lossy w.stdout))),
   [.spawnHelper])

/-! ## PAM session bootstrap (lib.rs `try_pam_session`, main.rs PAM flow)

The platform's PAM layer is abstracted as a world of step outcomes. -/

/-- Outcomes the PAM platform produces for each step. -/
structure PamWorld where
  ctxOk : Bool
  acctOk : Bool
  openOk : Bool
deriving DecidableEq

/-- Which bootstrap step failed (spec taxonomy, one per `?` in the source). -/
inductive PamError
  | contextInitFailed
  | accountInvalid
  | sessionOpenFailed
deriving DecidableEq

/-- Observable steps of a bootstrap invocation. -/
inductive PamEvent
  | ctxInit
  | acctMgmt
  | openSession
  | sessionDrop
deriving DecidableEq

/-- Embedding of `try_pam_session` (lib.rs lines 175-184): `Context::new`, then
`acct_mgmt`, then `open_session`, each aborting on failure via `?`; the
session value is dropped when the function returns `Ok(())`.  The ambient
effective uid `euid` is ignored: the source performs no privilege check. -/
def tryPamSession (_euid : Nat) (w : PamWorld) :
    Except PamError Unit × List PamEvent :=
  if w.ctxOk = false then (.error .contextInitFailed, [.ctxInit])
  else if w.acctOk = false then (.error .accountInvalid, [.ctxInit, .acctMgmt])
  else if w.openOk = false then
    (.error .sessionOpenFailed, [.ctxInit, .acctMgmt, .openSession])
  else (.ok (), [.ctxInit, .acctMgmt, .openSession, .sessionDrop])

/-! ## Child-command configuration (lib.rs `cmd_as_user`, main.rs lines 145-156) -/

/-- The fields of a `users::User` record used by the code. -/
structure UserRec where
  uid : Nat
  gid : Nat
  name : String
  home : String
deriving DecidableEq

/-- The state a `std::process::Command` builder accumulates before spawn. -/
structure CommandConfig where
  program : String
  args : List String
  uid : Option Nat
  gid : Option Nat
  envCleared : Bool
  env : List (List Nat × List Nat)
  stdoutPiped : Bool
  stderrPiped : Bool
deriving DecidableEq

/-- Embedding of `cmd_as_user` (lib.rs lines 125-133): harvest the user's environment
(propagating failure), then build a command with
`uid(user.uid()).gid(user.primary_group_id())` and
`env_clear().envs(env)`. -/
def cmdAsUser (euid : Nat) (w : HelperWorld) (program : String) (user : UserRec) :
    Except EnvError CommandConfig :=
  match (getUserEnv euid w).1 with
  | .error e => .error e
  | .ok env =>
    .ok { program := program, args := [], uid := some user.uid,
          gid := some user.gid, envCleared := true, env := env,
          stdoutPiped := false, stderrPiped := false }

/-- The literal R expression passed to the workload (main.rs line 148). -/
def rScriptArg : String :=
  "names(Sys.getenv()); message(\"USER: \", Sys.getenv(\"USER\"), \"\\nHOME: \", Sys.getenv(\"HOME\"),  \"\\nPATH: \", Sys.getenv(\"PATH\"))"

/-- The workload command built in `main` (main.rs lines 145-156):
`Command::new("R").arg("-e").arg(...).stdout(piped).stderr(piped)
.env_clear().envs(envs).uid(user.uid())` — note: no `.gid(...)` call. -/
def mainWorkloadCmd (user : UserRec) (envs : List (List Nat × List Nat)) :
    CommandConfig :=
  { program := "R", args := ["-e", rScriptArg], uid := some user.uid,
    gid := none, envCleared := true, env := envs,
    stdoutPiped := true, stderrPiped := true }

/-! ## Control flow of `main` (main.rs lines 76-184)

The sequence of observable steps the main thread performs, as a function of
the branch outcomes the environment supplies.  `exit(1)` / `expect` panics
end the trace. -/

/-- Observable steps of a run of `main`, in main-thread order.  `stdoutJoin`
and `stderrJoin` are the reader-thread join steps; the source contains them
only as commented-out code, so no trace ever includes them. -/
inductive MEvent
  | userLookup
  | homeCheck
  | pamCtxInit
  | pamAcctMgmt
  | pamOpenSession
  | homeRecheck
  | sessionDrop
  | harvestStart
  | harvestEnd
  | workloadSpawn
  | stdoutReaderSpawn
  | stderrReaderSpawn
  | waitChild
  | stdoutJoin
  | stderrJoin
deriving DecidableEq

/-- The harvest-and-supervise tail of `main` (main.rs lines 134-184):
run `get_env_as_map` (exit on failure), spawn the workload (panic on
failure), spawn the two reader threads, then `child.wait()`. -/
def harvestPhase (launchOk exitZero spawnOk : Bool) : List MEvent :=
  if launchOk = false then [.harvestStart]
  else if exitZero = false then [.harvestStart, .harvestEnd]
  else
    [.harvestStart, .harvestEnd] ++
    (if spawnOk = false then [.workloadSpawn]
     else [.workloadSpawn, .stdoutReaderSpawn, .stderrReaderSpawn, .waitChild])

/-- The main-thread event trace of `main` (main.rs lines 76-184): user
lookup, home-directory check; if the home directory is inaccessible, the
PAM bootstrap (context + acct_mgmt via `setup_pam_context`, then
`open_session`, each exiting on failure), the home recheck, and the drop of
`_session` at the end of the `else` block (line 133); then the harvest and
supervision tail. -/
def mainTrace (homeOk ctxOk acctOk openOk launchOk exitZero spawnOk : Bool) :
    List MEvent :=
  [.userLookup, .homeCheck] ++
  (if homeOk then harvestPhase launchOk exitZero spawnOk
   else if ctxOk = false then [.pamCtxInit]
   else if acctOk = false then [.pamCtxInit, .pamAcctMgmt]
   else if openOk = false then [.pamCtxInit, .pamAcctMgmt, .pamOpenSession]
   else
     [.pamCtxInit, .pamAcctMgmt, .pamOpenSession, .homeRecheck, .sessionDrop] ++
     harvestPhase launchOk exitZero spawnOk)

/-- Holds when `a` occurs in `tr`, `b` occurs in `tr`, and the first occurrence of `a`
is strictly before the first occurrence of `b`. -/
def occursBefore {α : Type} [DecidableEq α] (tr : List α) (a b : α) : Prop :=
  a ∈ tr ∧ b ∈ tr ∧
    tr.findIdx (fun e => decide (e = a)) < tr.findIdx (fun e => decide (e = b))

instance {α : Type} [DecidableEq α] (tr : List α) (a b : α) :
    Decidable (occursBefore tr a b) := by
  unfold occursBefore
  infer_instance

/-! ## Lemmas about the parse loop -/

theorem lookupEnv_insertEnv (m : List (List Nat × List Nat)) (k v q : List Nat) :
    lookupEnv (insertEnv m k v) q = if k = q then some v else lookupEnv m q := by
  induction m with
  | nil =>
    simp only [insertEnv, lookupEnv]
  | cons hd tl ih =>
    obtain ⟨k', v'⟩ := hd
    by_cases hk : k' = k
    · subst hk
      simp only [insertEnv, if_true, eq_self_iff_true, lookupEnv]
      by_cases hq : k' = q <;> simp [hq]
    · simp only [insertEnv, if_neg hk, lookupEnv, ih]
      by_cases hq : k = q
      · subst hq
        simp [if_neg hk]
      · simp [if_neg hq]

theorem lookupEnv_foldl (ls : List (List Nat)) (m : List (List Nat × List Nat))
    (q : List Nat) :
    lookupEnv (ls.foldl parseStep m) q =
      ((ls.filterMap splitFirstEq).reverse.find?
        (fun p => decide (p.1 = q))).elim (lookupEnv m q) (fun p => some p.2) := by
  induction ls generalizing m with
  | nil => simp
  | cons l ls ih =>
    rw [List.foldl_cons, ih]
    cases h : splitFirstEq l with
    | none =>
      simp [parseStep, h, List.filterMap_cons]
    | some kv =>
      obtain ⟨k, v⟩ := kv
      simp only [parseStep, h, List.filterMap_cons, List.reverse_cons,
        List.find?_append]
      cases h2 : (ls.filterMap splitFirstEq).reverse.find? (fun p => decide (p.1 = q)) with
      | some p => simp [Option.or]
      | none =>
        simp only [Option.or, lookupEnv_insertEnv]
        by_cases hq : k = q
        · subst hq
          simp [List.find?]
        · simp [List.find?, hq]

theorem lookupEnv_parseEnvLines (ls : List (List Nat)) (q : List Nat) :
    lookupEnv (parseEnvLines ls) q =
      ((ls.filterMap splitFirstEq).reverse.find?
        (fun p => decide (p.1 = q))).map Prod.snd := by
  rw [parseEnvLines, lookupEnv_foldl]
  cases h : (ls.filterMap splitFirstEq).reverse.find? (fun p => decide (p.1 = q)) <;>
    simp [lookupEnv]

theorem mem_keys_insertEnv (m : List (List Nat × List Nat)) (k v q : List Nat) :
    q ∈ (insertEnv m k v).map Prod.fst ↔ q ∈ m.map Prod.fst ∨ q = k := by
  induction m with
  | nil => simp [insertEnv]
  | cons hd tl ih =>
    obtain ⟨k', v'⟩ := hd
    by_cases hk : k' = k
    · subst hk
      simp only [insertEnv, if_true, eq_self_iff_true, List.map_cons, List.mem_cons]
      by_cases hq : q = k' <;> simp [hq]
    · simp only [insertEnv, if_neg hk, List.map_cons, List.mem_cons, ih]
      tauto

theorem nodup_keys_insertEnv (m : List (List Nat × List Nat)) (k v : List Nat) :
    (m.map Prod.fst).Nodup → ((insertEnv m k v).map Prod.fst).Nodup := by
  induction m with
  | nil => simp [insertEnv]
  | cons hd tl ih =>
    obtain ⟨k', v'⟩ := hd
    intro h
    simp only [List.map_cons, List.nodup_cons] at h
    by_cases hk : k' = k
    · subst hk
      simpa [insertEnv] using h
    · simp only [insertEnv, if_neg hk, List.map_cons, List.nodup_cons,
        mem_keys_insertEnv]
      exact ⟨by tauto, ih h.2⟩

theorem nodup_keys_foldl (ls : List (List Nat)) (m : List (List Nat × List Nat)) :
    (m.map Prod.fst).Nodup → ((ls.foldl parseStep m).map Prod.fst).Nodup := by
  induction ls generalizing m with
  | nil => intro h; simpa
  | cons l ls ih =>
    intro h
    rw [List.foldl_cons]
    apply ih
    unfold parseStep
    cases hs : splitFirstEq l with
    | none => exact h
    | some kv => exact nodup_keys_insertEnv m kv.1 kv.2 h

theorem lookupEnv_isSome_iff (m : List (List Nat × List Nat)) (q : List Nat) :
    (lookupEnv m q).isSome ↔ q ∈ m.map Prod.fst := by
  induction m with
  | nil => simp [lookupEnv]
  | cons hd tl ih =>
    obtain ⟨k', v'⟩ := hd
    by_cases hk : k' = q
    · subst hk
      simp [lookupEnv]
    · simp only [lookupEnv, if_neg hk, List.map_cons, List.mem_cons]
      rw [ih]
      constructor
      · exact Or.inr
      · rintro (h | h)
        · exact absurd h.symm hk
        · exact h

theorem mem_insertEnv (m : List (List Nat × List Nat)) (k v : List Nat)
    (e : List Nat × List Nat) : e ∈ insertEnv m k v → e ∈ m ∨ e = (k, v) := by
  induction m with
  | nil => intro h; simpa [insertEnv] using h
  | cons hd tl ih =>
    obtain ⟨k', v'⟩ := hd
    intro h
    by_cases hk : k' = k
    · subst hk
      simp only [insertEnv, if_true, eq_self_iff_true, List.mem_cons] at h
      rcases h with h | h
      · exact Or.inr h
      · exact Or.inl (List.mem_cons_of_mem _ h)
    · simp only [insertEnv, if_neg hk, List.mem_cons] at h
      rcases h with h | h
      · exact Or.inl (by simp [h])
      · rcases ih h with h' | h'
        · exact Or.inl (List.mem_cons_of_mem _ h')
        · exact Or.inr h'

theorem mem_foldl_parseStep (ls : List (List Nat)) (m : List (List Nat × List Nat))
    (e : List Nat × List Nat) : e ∈ ls.foldl parseStep m →
    e ∈ m ∨ e ∈ ls.filterMap splitFirstEq := by
  induction ls generalizing m with
  | nil => intro h; simpa using h
  | cons l ls ih =>
    intro h
    rw [List.foldl_cons] at h
    rcases ih (parseStep m l) h with h' | h'
    · unfold parseStep at h'
      cases hs : splitFirstEq l with
      | none => rw [hs] at h'; exact Or.inl h'
      | some kv =>
        rw [hs] at h'
        rcases mem_insertEnv m kv.1 kv.2 e h' with h'' | h''
        · exact Or.inl h''
        · refine Or.inr ?_
          simp [List.filterMap_cons, hs, h'']
    · exact Or.inr (by simp [List.filterMap_cons]; cases hs : splitFirstEq l <;> simp [hs, h'])

theorem splitFirstEq_decomp (l k v : List Nat) : splitFirstEq l = some (k, v) →
    l = k ++ 61 :: v := by
  induction l generalizing k with
  | nil => intro h; simp [splitFirstEq] at h
  | cons c rest ih =>
    intro h
    by_cases hc : c = 61
    · subst hc
      simp only [splitFirstEq, if_true, eq_self_iff_true, Option.some_inj, Prod.mk.injEq] at h
      obtain ⟨hk, hv⟩ := h
      simp [← hk, ← hv]
    · simp only [splitFirstEq, if_neg hc] at h
      cases hs : splitFirstEq rest with
      | none => rw [hs] at h; simp at h
      | some kv =>
        obtain ⟨k0, v0⟩ := kv
        rw [hs] at h
        simp only [Option.some_inj, Prod.mk.injEq] at h
        obtain ⟨hk, hv⟩ := h
        subst hv
        rw [← hk, List.cons_append, ih k0 hs]

theorem splitFirstEq_eq_none_iff (l : List Nat) :
    splitFirstEq l = none ↔ (61 : Nat) ∉ l := by
  induction l with
  | nil => simp [splitFirstEq]
  | cons c rest ih =>
    by_cases hc : c = 61
    · subst hc
      simp [splitFirstEq]
    · simp only [splitFirstEq, if_neg hc, List.mem_cons]
      cases hs : splitFirstEq rest with
      | none =>
        rw [hs] at ih
        constructor
        · intro _
          push_neg
          exact ⟨fun h => hc h.symm, ih.mp rfl⟩
        · intro _
          rfl
      | some kv =>
        have hmem : (61 : Nat) ∈ rest := by
          by_contra hmem
          rw [ih.mpr hmem] at hs
          exact Option.noConfusion hs
        obtain ⟨k0, v0⟩ := kv
        simp [hmem]

/-! ## Lemmas about line splitting and the harvest result -/

theorem not_mem_splitOnNl (cs : List Nat) (l : List Nat) :
    l ∈ splitOnNl cs → (10 : Nat) ∉ l := by
  induction cs generalizing l with
  | nil =>
    intro h
    simp only [splitOnNl, List.mem_singleton] at h
    simp [h]
  | cons c rest ih =>
    intro h
    by_cases hc : c = 10
    · subst hc
      simp only [splitOnNl, if_true, eq_self_iff_true, List.mem_cons] at h
      rcases h with h | h
      · simp [h]
      · exact ih l h
    · simp only [splitOnNl, if_neg hc] at h
      cases hs : splitOnNl rest with
      | nil =>
        rw [hs] at h
        simp only [List.mem_singleton] at h
        subst h
        simp only [List.mem_singleton]
        exact fun h10 => hc h10.symm
      | cons p ps =>
        rw [hs] at h
        simp only [List.mem_cons] at h
        rcases h with h | h
        · subst h
          have hp : (10 : Nat) ∉ p := ih p (by rw [hs]; exact List.mem_cons_self p ps)
          simp only [List.mem_cons]
          rintro (h10 | h10)
          · exact hc h10.symm
          · exact hp h10
        · exact ih l (by rw [hs]; exact List.mem_cons_of_mem p h)

theorem stripTrailCR_subset (l : List Nat) : stripTrailCR l ⊆ l := by
  unfold stripTrailCR
  split
  · exact List.dropLast_subset l
  · exact fun x h => h

theorem not_mem_rustLines (cs : List Nat) (l : List Nat) :
    l ∈ rustLines cs → (10 : Nat) ∉ l := by
  intro h
  simp only [rustLines, List.mem_map] at h
  obtain ⟨p, hp, hl⟩ := h
  have hp' : p ∈ splitOnNl cs := by
    by_cases hlast : (splitOnNl cs).getLast? = some []
    · rw [if_pos hlast] at hp
      exact List.dropLast_subset _ hp
    · rw [if_neg hlast] at hp
      exact hp
  intro h10
  exact not_mem_splitOnNl cs p hp' (stripTrailCR_subset p (hl ▸ h10))

theorem getUserEnv_ok_inv (euid : Nat) (w : HelperWorld)
    (m : List (List Nat × List Nat)) (h : (getUserEnv euid w).1 = .ok m) :
    m = parseEnvLines (rustLines (utf8Lossy w.stdout)) := by
  unfold getUserEnv at h
  by_cases he : euid ≠ 0
  · rw [if_pos he] at h
    exact absurd h (by simp)
  · rw [if_neg he] at h
    by_cases hl : w.launchOk = false
    · simp only [if_pos hl] at h
      exact absurd h (by simp)
    · simp only [if_neg hl] at h
      by_cases hz : w.exitZero = false
      · simp only [if_pos hz] at h
        exact absurd h (by simp)
      · simp only [if_neg hz] at h
        simpa using h.symm

/-! ## Lemmas about UTF-8 decoding -/

theorem utf8Lossy_ascii (b : Nat) (t : List Nat) (h : b < 0x80) :
    utf8Lossy (b :: t) = b :: utf8Lossy t := by
  rcases t with _ | ⟨c1, _ | ⟨c2, _ | ⟨c3, r⟩⟩⟩ <;> simp [utf8Lossy, h]

theorem utf8Lossy_two (b0 b1 : Nat) (t : List Nat) (h0 : 0xC2 ≤ b0)
    (h1 : b0 < 0xE0) (hc : isCont b1 = true) :
    utf8Lossy (b0 :: b1 :: t) = ((b0 - 0xC0) * 64 + (b1 - 0x80)) :: utf8Lossy t := by
  have hn1 : ¬ b0 < 0x80 := by omega
  have hn2 : ¬ b0 < 0xC2 := by omega
  rcases t with _ | ⟨c2, _ | ⟨c3, r⟩⟩ <;> simp [utf8Lossy, hn1, hn2, h1, hc]

theorem utf8Lossy_three (b0 b1 b2 : Nat) (t : List Nat) (h0 : 0xE0 ≤ b0)
    (h1 : b0 < 0xF0) (hcf : cont3first b0 b1 = true) (hc2 : isCont b2 = true) :
    utf8Lossy (b0 :: b1 :: b2 :: t) =
      ((b0 - 0xE0) * 4096 + (b1 - 0x80) * 64 + (b2 - 0x80)) :: utf8Lossy t := by
  have hn1 : ¬ b0 < 0x80 := by omega
  have hn2 : ¬ b0 < 0xC2 := by omega
  have hn3 : ¬ b0 < 0xE0 := by omega
  rcases t with _ | ⟨c3, r⟩ <;> simp [utf8Lossy, hn1, hn2, hn3, h1, hcf, hc2]

theorem utf8Lossy_four (b0 b1 b2 b3 : Nat) (t : List Nat) (h0 : 0xF0 ≤ b0)
    (h1 : b0 < 0xF5) (hcf : cont4first b0 b1 = true) (hc2 : isCont b2 = true)
    (hc3 : isCont b3 = true) :
    utf8Lossy (b0 :: b1 :: b2 :: b3 :: t) =
      ((b0 - 0xF0) * 0x40000 + (b1 - 0x80) * 4096 + (b2 - 0x80) * 64 +
        (b3 - 0x80)) :: utf8Lossy t := by
  have hn1 : ¬ b0 < 0x80 := by omega
  have hn2 : ¬ b0 < 0xC2 := by omega
  have hn3 : ¬ b0 < 0xE0 := by omega
  have hn4 : ¬ b0 < 0xF0 := by omega
  simp [utf8Lossy, hn1, hn2, hn3, hn4, h1, hcf, hc2, hc3]

theorem utf8Lossy_encodeChar (c : Nat) (h : IsScalar c) (t : List Nat) :
    utf8Lossy (utf8EncodeChar c ++ t) = c :: utf8Lossy t := by
  obtain ⟨hlt, hsur⟩ := h
  by_cases h1 : c < 0x80
  · rw [utf8EncodeChar, if_pos h1]
    simpa using utf8Lossy_ascii c t h1
  · by_cases h2 : c < 0x800
    · rw [utf8EncodeChar, if_neg h1, if_pos h2]
      have hstep := utf8Lossy_two (0xC0 + c / 64) (0x80 + c % 64) t (by omega)
        (by omega) (by simp [isCont]; omega)
      have hval : (0xC0 + c / 64 - 0xC0) * 64 + (0x80 + c % 64 - 0x80) = c := by
        omega
      simp only [List.cons_append, List.nil_append] at hstep ⊢
      rw [hstep, hval]
    · by_cases h3 : c < 0x10000
      · rw [utf8EncodeChar, if_neg h1, if_neg h2, if_pos h3]
        have hcf : cont3first (0xE0 + c / 4096) (0x80 + c / 64 % 64) = true := by
          simp only [cont3first, decide_eq_true_eq]
          omega
        have hstep := utf8Lossy_three (0xE0 + c / 4096) (0x80 + c / 64 % 64)
          (0x80 + c % 64) t (by omega) (by omega) hcf (by simp [isCont]; omega)
        have hval : (0xE0 + c / 4096 - 0xE0) * 4096 + (0x80 + c / 64 % 64 - 0x80) * 64 +
            (0x80 + c % 64 - 0x80) = c := by
          omega
        simp only [List.cons_append, List.nil_append] at hstep ⊢
        rw [hstep, hval]
      · rw [utf8EncodeChar, if_neg h1, if_neg h2, if_neg h3]
        have hcf : cont4first (0xF0 + c / 0x40000) (0x80 + c / 4096 % 64) = true := by
          simp only [cont4first, decide_eq_true_eq]
          omega
        have hstep := utf8Lossy_four (0xF0 + c / 0x40000) (0x80 + c / 4096 % 64)
          (0x80 + c / 64 % 64) (0x80 + c % 64) t (by omega) (by omega) hcf
          (by simp [isCont]; omega) (by simp [isCont]; omega)
        have hval : (0xF0 + c / 0x40000 - 0xF0) * 0x40000 +
            (0x80 + c / 4096 % 64 - 0x80) * 4096 + (0x80 + c / 64 % 64 - 0x80) * 64 +
            (0x80 + c % 64 - 0x80) = c := by
          omega
        simp only [List.cons_append, List.nil_append] at hstep ⊢
        rw [hstep, hval]

theorem utf8Lossy_utf8Encode (cs : List Nat) :
    (∀ c ∈ cs, IsScalar c) → utf8Lossy (utf8Encode cs) = cs := by
  induction cs with
  | nil => intro _; rfl
  | cons c cs ih =>
    intro h
    rw [show utf8Encode (c :: cs) = utf8EncodeChar c ++ utf8Encode cs from rfl]
    rw [utf8Lossy_encodeChar c (h c (List.mem_cons_self c cs)) (utf8Encode cs)]
    rw [ih (fun x hx => h x (List.mem_cons_of_mem c hx))]


/-! ## Claim theorems -/

/-- Claim C1 (the code contradicts it): in every execution of `main`, the
main thread never performs a reader-join step — the joins exist only as
commented-out code — and in a fully successful run it reaches the wait for
child termination right after spawning the two readers.  So the wait for
child-process termination is NOT deferred until both output readers reach
end-of-stream, and output buffered in the reader threads when `main`
returns can be lost. -/
theorem supervisor_waits_without_joining_readers :
    (∀ homeOk ctxOk acctOk openOk launchOk exitZero spawnOk : Bool,
      MEvent.stdoutJoin ∉ mainTrace homeOk ctxOk acctOk openOk launchOk exitZero spawnOk ∧
      MEvent.stderrJoin ∉ mainTrace homeOk ctxOk acctOk openOk launchOk exitZero spawnOk) ∧
    MEvent.waitChild ∈ mainTrace true true true true true true true ∧
    occursBefore (mainTrace true true true true true true true)
      MEvent.stderrReaderSpawn MEvent.waitChild := by
  refine ⟨by decide, by decide, by decide⟩

/-- Claim C2: the harvest parse maps each key occurring in a line that
contains `=` to the value of its last such line (last-write-wins), keys are
unique, lines without `=` contribute nothing, and the two end-to-end
scenarios of the spec hold. -/
theorem harvest_parse_correct :
    (∀ ls q, lookupEnv (parseEnvLines ls) q =
      ((ls.filterMap splitFirstEq).reverse.find?
        (fun p => decide (p.1 = q))).map Prod.snd) ∧
    (∀ ls, ((parseEnvLines ls).map Prod.fst).Nodup) ∧
    (∀ ls q, q ∈ (parseEnvLines ls).map Prod.fst ↔
      ∃ v, (q, v) ∈ ls.filterMap splitFirstEq) ∧
    parseEnvLines [codes "USER=alice", codes "HOME=/home/alice",
        codes "malformed", codes "PATH=/usr/bin"] =
      [(codes "USER", codes "alice"), (codes "HOME", codes "/home/alice"),
        (codes "PATH", codes "/usr/bin")] ∧
    parseEnvLines [codes "A=1", codes "A=2"] = [(codes "A", codes "2")] := by
  refine ⟨lookupEnv_parseEnvLines, fun ls => nodup_keys_foldl ls [] (by simp),
    ?_, by decide, by decide⟩
  intro ls q
  rw [← lookupEnv_isSome_iff, lookupEnv_parseEnvLines]
  simp only [Option.isSome_map', List.find?_isSome, List.mem_reverse,
    decide_eq_true_eq]
  constructor
  · rintro ⟨⟨k0, v0⟩, hmem, hk⟩
    cases hk
    exact ⟨v0, hmem⟩
  · rintro ⟨v, hv⟩
    exact ⟨(q, v), hv, rfl⟩

/-- Claim C3 counterexample: a non-privileged caller (effective uid 1000)
running the session bootstrap is not rejected — `try_pam_session` performs
no privilege check, succeeds, and attempts the platform session steps; the
main binary's own harvest copy `get_env_as_map` likewise invokes the
subprocess launcher without any privilege check. -/
theorem bootstrap_ignores_privilege :
    (tryPamSession 1000 ⟨true, true, true⟩).1 = .ok () ∧
    PamEvent.openSession ∈ (tryPamSession 1000 ⟨true, true, true⟩).2 ∧
    EnvEvent.spawnHelper ∈ (getEnvAsMap 1000 ⟨true, true, [], [], []⟩).2 := by
  refine ⟨rfl, by decide, by decide⟩

/-- Claim C3 as amended: the library harvest `get_user_env` checks
privilege first and returns `InsufficientPrivileges` without spawning any
subprocess when the caller is not root; the session bootstrap
(`try_pam_session`) and the main binary's harvest copy (`get_env_as_map`)
perform no privilege check at all — their behaviour is independent of the
caller's uid and the helper spawn always happens in the latter. -/
theorem privilege_check_amended :
    (∀ euid w, euid ≠ 0 →
      (getUserEnv euid w).1 = .error .insufficientPrivileges ∧
      EnvEvent.spawnHelper ∉ (getUserEnv euid w).2) ∧
    (∀ euid1 euid2 w, tryPamSession euid1 w = tryPamSession euid2 w) ∧
    (∀ euid1 euid2 w, getEnvAsMap euid1 w = getEnvAsMap euid2 w) ∧
    (∀ euid w, EnvEvent.spawnHelper ∈ (getEnvAsMap euid w).2) := by
  refine ⟨?_, fun _ _ _ => rfl, fun _ _ _ => rfl, fun _ _ => by simp [getEnvAsMap]⟩
  intro euid w h
  simp [getUserEnv, h]

/-- Witness for `privilege_check_amended` at effective uid 1000. -/
theorem privilege_check_amended_witness :
    (getUserEnv 1000 ⟨true, true, [], [], []⟩).1 = .error .insufficientPrivileges ∧
    EnvEvent.spawnHelper ∉ (getUserEnv 1000 ⟨true, true, [], [], []⟩).2 :=
  privilege_check_amended.1 1000 ⟨true, true, [], [], []⟩ (by decide)

/-- Claim C4 counterexample: the workload command that `main` builds for an
identity with gid 987 carries no group id at all — `main` never calls
`.gid(...)` — so the child's effective group identifier is not set to
`identity.gid`. -/
theorem workload_cmd_gid_missing :
    (mainWorkloadCmd ⟨1000, 987, "alice", "/home/alice"⟩ []).gid = none ∧
    (mainWorkloadCmd ⟨1000, 987, "alice", "/home/alice"⟩ []).gid ≠ some 987 := by
  exact ⟨rfl, by decide⟩

/-- Claim C4 as amended: the library's `cmd_as_user` configures the command
with the identity's uid AND gid and a cleared-then-replaced environment
equal to the harvested map; the workload command in `main` sets the uid and
the cleared-then-replaced environment but no gid. -/
theorem command_identity_env_amended :
    (∀ euid w p u cfg, cmdAsUser euid w p u = .ok cfg →
      cfg.uid = some u.uid ∧ cfg.gid = some u.gid ∧ cfg.envCleared = true ∧
      (getUserEnv euid w).1 = .ok cfg.env) ∧
    (∀ u envs, (mainWorkloadCmd u envs).uid = some u.uid ∧
      (mainWorkloadCmd u envs).gid = none ∧
      (mainWorkloadCmd u envs).envCleared = true ∧
      (mainWorkloadCmd u envs).env = envs) := by
  constructor
  · intro euid w p u cfg h
    unfold cmdAsUser at h
    cases hg : (getUserEnv euid w).1 with
    | error e => rw [hg] at h; exact absurd h (by simp)
    | ok env =>
      rw [hg] at h
      simp only [Except.ok.injEq] at h
      subst h
      exact ⟨rfl, rfl, rfl, rfl⟩
  · intro u envs
    exact ⟨rfl, rfl, rfl, rfl⟩

/-- Witness for `command_identity_env_amended` on a concrete successful
harvest. -/
theorem command_identity_env_amended_witness :
    (⟨"ls", [], some 1000, some 987, true, [(codes "A", codes "1")], false,
        false⟩ : CommandConfig).uid = some 1000 ∧
    (⟨"ls", [], some 1000, some 987, true, [(codes "A", codes "1")], false,
        false⟩ : CommandConfig).gid = some 987 ∧
    (⟨"ls", [], some 1000, some 987, true, [(codes "A", codes "1")], false,
        false⟩ : CommandConfig).envCleared = true ∧
    (getUserEnv 0 ⟨true, true, codes "A=1", [], []⟩).1 =
      .ok (⟨"ls", [], some 1000, some 987, true, [(codes "A", codes "1")],
        false, false⟩ : CommandConfig).env :=
  command_identity_env_amended.1 0 ⟨true, true, codes "A=1", [], []⟩ "ls"
    ⟨1000, 987, "alice", "/home/alice"⟩ _ (by decide)

/-- Claim C5: the bootstrap performs context initialisation, account
validation and session open in that fixed order, and when account
validation fails the operation returns `AccountInvalid`, the session-open
step is never attempted and no session handle is produced. -/
theorem pam_steps_ordered_acct_abort :
    ∀ (euid : Nat) (w : PamWorld),
      ((tryPamSession euid w).2.head? = some PamEvent.ctxInit) ∧
      (PamEvent.acctMgmt ∈ (tryPamSession euid w).2 →
        occursBefore (tryPamSession euid w).2 PamEvent.ctxInit PamEvent.acctMgmt) ∧
      (PamEvent.openSession ∈ (tryPamSession euid w).2 →
        occursBefore (tryPamSession euid w).2 PamEvent.acctMgmt PamEvent.openSession) ∧
      (w.ctxOk = true → w.acctOk = false →
        (tryPamSession euid w).1 = .error .accountInvalid ∧
        PamEvent.openSession ∉ (tryPamSession euid w).2) := by
  intro euid w
  obtain ⟨b1, b2, b3⟩ := w
  cases b1 <;> cases b2 <;> cases b3 <;>
    simp [tryPamSession, occursBefore] <;> decide

/-- Witness for `pam_steps_ordered_acct_abort` on a locked account. -/
theorem pam_steps_ordered_acct_abort_witness :
    (tryPamSession 0 ⟨true, false, true⟩).1 = .error .accountInvalid ∧
    PamEvent.openSession ∉ (tryPamSession 0 ⟨true, false, true⟩).2 :=
  (pam_steps_ordered_acct_abort 0 ⟨true, false, true⟩).2.2.2 rfl rfl

/-- Claim C6 counterexample: with stderr consisting of the single invalid
byte 0xFF, the harvest failure carries the replacement character U+FFFD,
not the original byte — neither the payload nor its UTF-8 encoding equals
the captured stderr bytes, so the bytes are not preserved verbatim. -/
theorem helper_stderr_not_verbatim :
    (getUserEnv 0 ⟨true, false, [], [0xFF], []⟩).1 =
      .error (.commandExited [0xFFFD]) ∧
    ([0xFFFD] : List Nat) ≠ [0xFF] ∧
    utf8Encode [0xFFFD] ≠ [0xFF] := by
  exact ⟨rfl, by decide, by decide⟩

/-- Claim C6 as amended: a helper that exits non-zero makes the harvest
fail with `CommandExited` carrying the LOSSY UTF-8 decoding of the captured
stderr bytes (and no environment map); whenever the stderr bytes are valid
UTF-8 — i.e. the encoding of scalar text — that decoding is the text
verbatim. -/
theorem helper_failure_stderr_lossy :
    (∀ w : HelperWorld, w.launchOk = true → w.exitZero = false →
      (getUserEnv 0 w).1 = .error (.commandExited (utf8Lossy w.stderr))) ∧
    (∀ cs : List Nat, (∀ c ∈ cs, IsScalar c) →
      utf8Lossy (utf8Encode cs) = cs) := by
  constructor
  · intro w hl hz
    simp [getUserEnv, hl, hz]
  · exact utf8Lossy_utf8Encode

/-- Witness for `helper_failure_stderr_lossy`. -/
theorem helper_failure_stderr_lossy_witness :
    (getUserEnv 0 ⟨true, false, [], codes "oops", []⟩).1 =
      .error (.commandExited (utf8Lossy (codes "oops"))) ∧
    utf8Lossy (utf8Encode [104, 105]) = [104, 105] :=
  ⟨helper_failure_stderr_lossy.1 ⟨true, false, [], codes "oops", []⟩ rfl rfl,
   helper_failure_stderr_lossy.2 [104, 105] (by decide)⟩

/-- Claim C7: the harvest never fails on decoding — for every stdout byte
stream of a successfully exiting helper it returns a parsed map of the
lossily decoded text; invalid byte sequences become U+FFFD and parsing
proceeds on the substituted text. -/
theorem lossy_decode_never_fails :
    (∀ w : HelperWorld, w.launchOk = true → w.exitZero = true →
      (getUserEnv 0 w).1 = .ok (parseEnvLines (rustLines (utf8Lossy w.stdout)))) ∧
    utf8Lossy [65, 255, 66] = [65, 0xFFFD, 66] ∧
    (getUserEnv 0 ⟨true, true, [65, 61, 255, 10], [], []⟩).1 =
      .ok [([65], [0xFFFD])] := by
  refine ⟨?_, by decide, by decide⟩
  intro w hl hz
  simp [getUserEnv, hl, hz]

/-- Witness for `lossy_decode_never_fails` on invalid UTF-8 stdout. -/
theorem lossy_decode_never_fails_witness :
    (getUserEnv 0 ⟨true, true, [0xFF, 61, 0xFF, 10], [], []⟩).1 =
      .ok (parseEnvLines (rustLines (utf8Lossy ([0xFF, 61, 0xFF, 10] : List Nat)))) :=
  lossy_decode_never_fails.1 ⟨true, true, [0xFF, 61, 0xFF, 10], [], []⟩ rfl rfl

/-- Claim C8: in every run of `main` in which the session bootstrap ran and
harvesting began, the drop of the session handle precedes the start of
harvesting; and in every run that spawns the workload, harvesting completed
before the spawn. -/
theorem session_before_harvest_before_spawn :
    ∀ homeOk ctxOk acctOk openOk launchOk exitZero spawnOk : Bool,
      (MEvent.pamCtxInit ∈ mainTrace homeOk ctxOk acctOk openOk launchOk exitZero spawnOk →
        MEvent.harvestStart ∈ mainTrace homeOk ctxOk acctOk openOk launchOk exitZero spawnOk →
        occursBefore (mainTrace homeOk ctxOk acctOk openOk launchOk exitZero spawnOk)
          MEvent.sessionDrop MEvent.harvestStart) ∧
      (MEvent.workloadSpawn ∈ mainTrace homeOk ctxOk acctOk openOk launchOk exitZero spawnOk →
        occursBefore (mainTrace homeOk ctxOk acctOk openOk launchOk exitZero spawnOk)
          MEvent.harvestEnd MEvent.workloadSpawn) := by
  decide

/-- Witness for `session_before_harvest_before_spawn` on the
bootstrap-then-run path. -/
theorem session_before_harvest_before_spawn_witness :
    occursBefore (mainTrace false true true true true true true)
      MEvent.sessionDrop MEvent.harvestStart ∧
    occursBefore (mainTrace false true true true true true true)
      MEvent.harvestEnd MEvent.workloadSpawn :=
  ⟨(session_before_harvest_before_spawn false true true true true true true).1
      (by decide) (by decide),
   (session_before_harvest_before_spawn false true true true true true true).2
      (by decide)⟩

/-- Claim C9: a line starting with `=` parses to the empty key with the
rest as value, a line `K=` (no `=` inside `K`) parses to key `K` with the
empty value, exactly the lines with no `=` are dropped, and the
corresponding single-line maps gain those entries. -/
theorem empty_key_or_value_inserted :
    (∀ v : List Nat, splitFirstEq (61 :: v) = some ([], v)) ∧
    (∀ k : List Nat, (61 : Nat) ∉ k → splitFirstEq (k ++ [61]) = some (k, [])) ∧
    (∀ l : List Nat, splitFirstEq l = none ↔ (61 : Nat) ∉ l) ∧
    parseEnvLines [codes "=V"] = [([], codes "V")] ∧
    parseEnvLines [codes "K="] = [(codes "K", [])] := by
  refine ⟨?_, ?_, splitFirstEq_eq_none_iff, by decide, by decide⟩
  · intro v
    simp [splitFirstEq]
  · intro k hk
    induction k with
    | nil => simp [splitFirstEq]
    | cons c rest ih =>
      simp only [List.mem_cons] at hk
      push_neg at hk
      have hc : c ≠ 61 := fun h => hk.1 h.symm
      have hrest := ih hk.2
      simp only [List.cons_append, splitFirstEq, if_neg hc, List.append_eq, hrest]

/-- Witness for `empty_key_or_value_inserted` at key `K`. -/
theorem empty_key_or_value_inserted_witness :
    splitFirstEq (codes "K" ++ [61]) = some (codes "K", []) :=
  empty_key_or_value_inserted.2.1 (codes "K") (by decide)

/-- Claim C10: no key and no value in a successful harvest result contains
a newline (code 10), because parsing consumes the captured output line by
line; a value emitted with an embedded newline is split across entries
rather than stored intact. -/
theorem harvest_no_newline :
    (∀ (euid : Nat) (w : HelperWorld) m, (getUserEnv euid w).1 = .ok m →
      ∀ k v, (k, v) ∈ m → (10 : Nat) ∉ k ∧ (10 : Nat) ∉ v) ∧
    parseEnvLines (rustLines (utf8Lossy (codes "A=1" ++ [10] ++ codes "B=2"))) =
      [(codes "A", codes "1"), (codes "B", codes "2")] := by
  refine ⟨?_, by decide⟩
  intro euid w m hok k v hmem
  have hm := getUserEnv_ok_inv euid w m hok
  subst hm
  rw [parseEnvLines] at hmem
  rcases mem_foldl_parseStep _ [] (k, v) hmem with h | h
  · simp at h
  · rw [List.mem_filterMap] at h
    obtain ⟨line, hline, hsplit⟩ := h
    have hdec := splitFirstEq_decomp line k v hsplit
    have h10 : (10 : Nat) ∉ line := not_mem_rustLines _ line hline
    rw [hdec] at h10
    simp only [List.mem_append, List.mem_cons] at h10
    push_neg at h10
    exact ⟨h10.1, h10.2.2⟩

/-- Witness for `harvest_no_newline` on the harvest of `A=1\nB=2`. -/
theorem harvest_no_newline_witness :
    (10 : Nat) ∉ ([65] : List Nat) ∧ (10 : Nat) ∉ ([49] : List Nat) :=
  harvest_no_newline.1 0 ⟨true, true, [65, 61, 49, 10, 66, 61, 50], [], []⟩
    [([65], [49]), ([66], [50])] (by decide) [65] [49] (by decide)

end Polyjuice
